import Mathlib

/-!  Verification of the classification-marking lattice and the
     classified-value monad of the bell-lapadula repository
     (src/classification/classified.py and src/classification/maybe.py).

     Modelling conventions of this shallow embedding:
     * Python strings are modelled as lists of characters (`List Char`);
       `strL` converts a Lean string literal to that representation.
     * Python frozensets of strings are modelled as `Finset (List Char)`.
     * Python exception objects are modelled by the explicit type `Err`.
     * A Python call that may raise is modelled as returning `PyResult`.
-/

/-- Convert a string literal to the character-list representation used for
Python strings throughout this development. -/
def strL (s : String) : List Char := s.toList

/-- Model of the Python exception values used by the classification module:
the ExpectationError kind defined in maybe.py (with an optional message),
the ValueError raised by the marking parser for mismatched parentheses, and
arbitrary other exception objects distinguished by a numeric tag. -/
inductive Err where
  | expectation (msg : Option String)
  | valueError
  | other (tag : Nat)
deriving DecidableEq

/-- Outcome of calling a Python function: a returned value or a raised
exception. -/
inductive PyResult (α : Type) where
  | ok (a : α)
  | raised (e : Err)
deriving DecidableEq

/-- Model of classified.py's Classification: a frozenset of hierarchical
level tokens and a frozenset of compartment tokens.  Equality is structural
equality of the two sets, exactly as Classification.__eq__ implements it. -/
@[ext]
structure Classification where
  level : Finset (List Char)
  compartment : Finset (List Char)
deriving DecidableEq

/-- Model of classified.py's _is_subset (lines 20-37): returns True when
`a` is empty and otherwise tests Python's frozenset `<`, which is the
proper-subset test. -/
def is_subset (a b : Finset (List Char)) : Bool :=
  if a.card = 0 then true else decide (a ⊂ b)

/-- Model of Classification.__lt__ (classified.py lines 103-110). -/
def Classification.lt (a b : Classification) : Bool :=
  (is_subset a.level b.level && decide (a.compartment ⊆ b.compartment)) ||
  (decide (a.level ⊆ b.level) && is_subset a.compartment b.compartment)

/-- Model of Classification.__le__ (classified.py lines 112-115). -/
def Classification.le (a b : Classification) : Bool :=
  decide (a.level ⊆ b.level) && decide (a.compartment ⊆ b.compartment)

/-- Model of Classification.__gt__ (classified.py lines 117-124). -/
def Classification.gt (a b : Classification) : Bool :=
  (is_subset b.level a.level && decide (b.compartment ⊆ a.compartment)) ||
  (decide (b.level ⊆ a.level) && is_subset b.compartment a.compartment)

/-- Model of Classification.__ge__ (classified.py lines 126-129). -/
def Classification.ge (a b : Classification) : Bool :=
  decide (b.level ⊆ a.level) && decide (b.compartment ⊆ a.compartment)

/-- The bottom marking Classification([], []). -/
def Classification.bottom : Classification := ⟨∅, ∅⟩

/-- Model of union (classified.py lines 178-198): flatten all the level
sets of the sequence into one frozenset and all the compartment sets into
another. -/
def union (l : List Classification) : Classification :=
  ⟨(l.map Classification.level).foldr (· ∪ ·) ∅,
   (l.map Classification.compartment).foldr (· ∪ ·) ∅⟩

/-- The strict order exactly as the specification and claim C2 word it,
with genuine proper subsets in the strict positions.  This follows the
claim's words, not the source, and exists to be compared against the
code's Classification.lt. -/
def lt_claimed (a b : Classification) : Prop :=
  (a.level ⊂ b.level ∧ a.compartment ⊆ b.compartment) ∨
  (a.level ⊆ b.level ∧ a.compartment ⊂ b.compartment)

instance (a b : Classification) : Decidable (lt_claimed a b) := by
  unfold lt_claimed
  infer_instance

/-- The value slot of a Maybe or Classified object.  Python stores either
the MISSING sentinel (referenced by classified.py; its class lives in the
maybe module), the None object, or an ordinary value; the sentinel and
None are distinct Python objects. -/
inductive Slot (V : Type) where
  | missing
  | pynone
  | val (v : V)
deriving DecidableEq

/-- Model of Maybe (maybe.py): a stored value slot and an optionally
stored exception.  A Maybe is valid exactly when no exception is stored
(maybe.py line 80). -/
structure Maybe (V : Type) where
  value : Slot V
  error : Option Err
deriving DecidableEq

/-- Model of the error-argument coercion shared by Maybe.nothing and
Classified.nothing: a string becomes an ExpectationError carrying it, an
absent argument becomes a bare ExpectationError, and an exception object
is kept as is. -/
def mkErr : Option (Err ⊕ String) → Err
  | some (.inl e) => e
  | some (.inr s) => .expectation (some s)
  | none => .expectation none

/-- Model of Maybe.just. -/
def Maybe.just {V : Type} (v : Slot V) : Maybe V := ⟨v, none⟩

/-- Model of Maybe.nothing: Python stores None in the value slot together
with the coerced error. -/
def Maybe.nothing {V : Type} (e : Option (Err ⊕ String)) : Maybe V :=
  ⟨.pynone, some (mkErr e)⟩

/-- Model of Maybe.is_valid. -/
def Maybe.is_valid {V : Type} (m : Maybe V) : Bool := m.error.isNone

/-- Model of Maybe.map (maybe.py lines 83-99): an invalid receiver passes
its stored error to Maybe.nothing unchanged; on a valid receiver the
function is called on the value slot, a raised exception being captured
into an invalid result.  The combinator itself is total. -/
def Maybe.map {V : Type} (m : Maybe V) (f : Slot V → PyResult (Slot V)) :
    Maybe V :=
  match m.error with
  | some e => Maybe.nothing (some (.inl e))
  | none =>
      match f m.value with
      | .ok r => Maybe.just r
      | .raised e => Maybe.nothing (some (.inl e))

/-- Model of Maybe.apply (maybe.py lines 101-113): monadic bind; the
function's result is returned directly on a valid receiver. -/
def Maybe.apply {V : Type} (m : Maybe V) (f : Slot V → Maybe V) : Maybe V :=
  match m.error with
  | some e => Maybe.nothing (some (.inl e))
  | none => f m.value

/-- Model of Maybe.if_error (maybe.py lines 115-129): a valid receiver is
returned unchanged, otherwise the handler is called on the stored error. -/
def Maybe.if_error {V : Type} (m : Maybe V) (f : Err → Maybe V) : Maybe V :=
  match m.error with
  | none => m
  | some e => f e

/-- Model of Maybe.expect (maybe.py lines 131-158): on an invalid receiver
an override exception wins, an override string becomes an
ExpectationError, and otherwise the stored error is raised (the code's
final default branch is unreachable because an invalid Maybe always
stores an error); a valid receiver returns the value slot. -/
def Maybe.expect {V : Type} (m : Maybe V) (msg : Option (Err ⊕ String)) :
    PyResult (Slot V) :=
  match m.error with
  | none => .ok m.value
  | some e =>
      match msg with
      | some (.inl e2) => .raised e2
      | some (.inr s) => .raised (.expectation (some s))
      | none => .raised e

/-- Model of Classified (classified.py): a value slot, an optionally
stored exception, and a classification marking. -/
structure Classified (V : Type) where
  value : Slot V
  error : Option Err
  classification : Classification
deriving DecidableEq

/-- Model of Classified.just; an absent marking argument coerces to the
bottom marking. -/
def Classified.just {V : Type} (v : Slot V) (c : Option Classification) :
    Classified V :=
  ⟨v, none, c.getD Classification.bottom⟩

/-- Model of Classified.nothing: Python stores the MISSING sentinel in the
value slot together with the coerced error and marking. -/
def Classified.nothing {V : Type} (e : Option (Err ⊕ String))
    (c : Option Classification) : Classified V :=
  ⟨.missing, some (mkErr e), c.getD Classification.bottom⟩

/-- Model of Classified.is_valid. -/
def Classified.is_valid {V : Type} (x : Classified V) : Bool :=
  x.error.isNone

/-- The dynamic argument universe accepted by Classified.coerce (and by
the handler position of Classified.if_error, whose callback is only
duck-typed in Python): an already-classified value, a Maybe, or a raw
value. -/
inductive CoVal (V : Type) where
  | cls (c : Classified V)
  | mb (m : Maybe V)
  | raw (v : Slot V)
deriving DecidableEq

/-- Model of Classified.coerce (classified.py lines 304-335): a Classified
argument is returned unchanged; a Maybe argument keeps its stored error,
the branch for a valid Maybe holding the MISSING sentinel producing an
invalid result with the default error; a raw value is wrapped as valid.
The marking argument defaults to the bottom marking. -/
def Classified.coerce {V : Type} (x : CoVal V) (c : Option Classification) :
    Classified V :=
  let clss := c.getD Classification.bottom
  match x with
  | .cls d => d
  | .mb m =>
      match m.error with
      | none =>
          match m.value with
          | .missing => Classified.nothing none (some clss)
          | v => Classified.just v (some clss)
      | some e => Classified.nothing (some (.inl e)) (some clss)
  | .raw v => Classified.just v (some clss)

/-- Model of Classified.map (classified.py lines 337-347): identical
failure capture to Maybe.map, the receiver's own marking being attached to
both outcomes. -/
def Classified.map {V : Type} (x : Classified V)
    (f : Slot V → PyResult (Slot V)) : Classified V :=
  match x.error with
  | some e => Classified.nothing (some (.inl e)) (some x.classification)
  | none =>
      match f x.value with
      | .ok r => Classified.just r (some x.classification)
      | .raised e => Classified.nothing (some (.inl e)) (some x.classification)

/-- Model of Classified.expect (classified.py lines 432-461): as
Maybe.expect, except that a valid receiver whose slot holds the MISSING
sentinel raises a bare ExpectationError. -/
def Classified.expect {V : Type} (x : Classified V)
    (msg : Option (Err ⊕ String)) : PyResult (Slot V) :=
  match x.error with
  | some e =>
      match msg with
      | some (.inl e2) => .raised e2
      | some (.inr s) => .raised (.expectation (some s))
      | none => .raised e
  | none =>
      match x.value with
      | .missing => .raised (.expectation none)
      | v => .ok v

/-- Model of Classified.apply (classified.py lines 385-408).  The valid
branch first unwraps the receiver with self.expect(), which raises out of
apply when the slot holds the MISSING sentinel, hence the PyResult return
type; otherwise the handler's Maybe outcome is rewrapped with the
receiver's own marking. -/
def Classified.apply {V : Type} (x : Classified V) (f : Slot V → Maybe V) :
    PyResult (Classified V) :=
  match x.error with
  | some e => .ok (Classified.nothing (some (.inl e)) (some x.classification))
  | none =>
      match x.expect none with
      | .raised e => .raised e
      | .ok v =>
          match (f v).error with
          | none => .ok (Classified.just (f v).value (some x.classification))
          | some e =>
              .ok (Classified.nothing (some (.inl e)) (some x.classification))

/-- Model of Classified.if_error (classified.py lines 410-430): a valid
receiver is returned unchanged; otherwise the handler is called on the
stored error (the code's branch passing a fresh ExpectationError when no
error is stored is unreachable, because an invalid Classified always
stores an error) and the handler's result is coerced with the receiver's
own marking. -/
def Classified.if_error {V : Type} (x : Classified V) (f : Err → CoVal V) :
    Classified V :=
  match x.error with
  | none => x
  | some e => Classified.coerce (f e) (some x.classification)

/-- Sequential unwrapping of the coerced positional arguments inside
map_many's method closure: each is unwrapped with expect(), the first
stored error (or MISSING payload) raising. -/
def expectAll {V : Type} : List (Classified V) → PyResult (List (Slot V))
  | [] => .ok []
  | c :: rest =>
      match c.expect none with
      | .raised e => .raised e
      | .ok v =>
          match expectAll rest with
          | .raised e => .raised e
          | .ok vs => .ok (v :: vs)

/-- Sequential unwrapping of the coerced keyword arguments inside
map_many's method closure. -/
def expectAllKw {V : Type} :
    List (String × Classified V) → PyResult (List (String × Slot V))
  | [] => .ok []
  | (k, c) :: rest =>
      match c.expect none with
      | .raised e => .raised e
      | .ok v =>
          match expectAllKw rest with
          | .raised e => .raised e
          | .ok vs => .ok ((k, v) :: vs)

/-- Model of Classified.map_many (classified.py lines 349-383), the batch
combinator the spec calls evaluate: every positional and keyword argument
is coerced with the default bottom marking, the union of the two unions of
their markings is computed, and the function is run on the unwrapped
arguments inside the same capture boundary as Classified.map (the final
line of the source is Classified.just(arguments, classification)
.map(method), whose receiver is valid, so it reduces to the final match
below). -/
def map_many {V : Type}
    (f : List (Slot V) → List (String × Slot V) → PyResult (Slot V))
    (args : List (CoVal V)) (kwargs : List (String × CoVal V)) :
    Classified V :=
  let cargs := args.map (fun a => Classified.coerce a none)
  let ckwargs := kwargs.map (fun kv => (kv.1, Classified.coerce kv.2 none))
  let classification :=
    union [union (cargs.map Classified.classification),
           union (ckwargs.map (fun kv => kv.2.classification))]
  let method : PyResult (Slot V) :=
    match expectAll cargs with
    | .raised e => .raised e
    | .ok uargs =>
        match expectAllKw ckwargs with
        | .raised e => .raised e
        | .ok ukwargs => f uargs ukwargs
  match method with
  | .ok r => Classified.just r (some classification)
  | .raised e => Classified.nothing (some (.inl e)) (some classification)

/-- The marking an argument contributes in map_many: the classification of
its coercion (an already-classified argument keeps its own marking; raw
and Maybe arguments contribute the bottom marking). -/
def CoVal.contributed {V : Type} (a : CoVal V) : Classification :=
  (Classified.coerce a none).classification

/-- Whitespace predicate used to model Python's str.strip. -/
def wsb (c : Char) : Bool := c.isWhitespace

/-- Model of Python's str.strip(): remove leading and trailing
whitespace. -/
def trimL (s : List Char) : List Char :=
  ((s.dropWhile wsb).reverse.dropWhile wsb).reverse

/-- Model of Python's str.split("/"): greedy left-to-right splitting on a
single slash. -/
def splitSlash : List Char → List (List Char)
  | [] => [[]]
  | c :: cs =>
      if c = '/' then [] :: splitSlash cs
      else
        match splitSlash cs with
        | [] => [[c]]
        | p :: t => (c :: p) :: t

/-- Model of Python's str.split("//"): greedy left-to-right splitting on
two consecutive slashes. -/
def splitDSlash : List Char → List (List Char)
  | [] => [[]]
  | [c] => [[c]]
  | c :: d :: rest =>
      if c = '/' ∧ d = '/' then [] :: splitDSlash rest
      else
        match splitDSlash (d :: rest) with
        | [] => [[c]]
        | p :: t => (c :: p) :: t

/-- Model of Python's "/".join: interleave the separator between the
pieces. -/
def interL (sep : List Char) : List (List Char) → List Char
  | [] => []
  | [p] => p
  | p :: ps => p ++ sep ++ interL sep ps

/-- Index of the first occurrence of a character, modelling Python's
str.find. -/
def ffindIdx (c : Char) : List Char → Option Nat
  | [] => none
  | d :: rest =>
      if d = c then some 0 else (ffindIdx c rest).map (· + 1)

/-- Index of the last occurrence of a character, modelling Python's
str.rfind. -/
def rfindIdx (c : Char) : List Char → Option Nat
  | [] => none
  | d :: rest =>
      match rfindIdx c rest with
      | some i => some (i + 1)
      | none => if d = c then some 0 else none

/-- Model of the _remove_parens helper inside _parse_classification_string
(classified.py lines 139-148): when both a "(" and a ")" occur, the slice
strictly between the first "(" and the last ")" is kept; when exactly one
of the two occurs, a ValueError is raised; otherwise the string is
returned unchanged. -/
def remove_parens (s : List Char) : PyResult (List Char) :=
  match ffindIdx '(' s, rfindIdx ')' s with
  | some i, some j => .ok ((s.take j).drop (i + 1))
  | none, none => .ok s
  | _, _ => .raised .valueError

/-- Model of the _split helper with length 2 (classified.py lines
150-159): the whole string is stripped, split on "//", and only the first
two pieces are kept, the second being None when the split produced a
single piece. -/
def split2 (s : List Char) : List Char × Option (List Char) :=
  match splitDSlash (trimL s) with
  | [] => ([], none)
  | [a] => (a, none)
  | a :: b :: _ => (a, some b)

/-- Model of _parse_classification_string (classified.py lines 138-175).
An empty or absent part yields the empty set; otherwise the part is split
on "/", each token is stripped, and in the level part the tokens equal to
"UNCLASSIFIED" are dropped.  The final Classification.coerce(level, comp)
of the source builds the structure from the two sets. -/
def parse_classification_string (s : List Char) : PyResult Classification :=
  match remove_parens s with
  | .raised e => .raised e
  | .ok body =>
      let p := split2 body
      let level : Finset (List Char) :=
        if p.1.length = 0 then ∅
        else (((splitSlash p.1).map trimL).filter
                (fun t => t ≠ strL "UNCLASSIFIED")).toFinset
      let comp : Finset (List Char) :=
        match p.2 with
        | none => ∅
        | some cs =>
            if cs.length = 0 then ∅
            else ((splitSlash cs).map trimL).toFinset
      .ok ⟨level, comp⟩

/-- The dynamic first argument accepted by Classification.coerce: an
existing Classification, a textual marking, an iterable of level tokens,
or None. -/
inductive LevelArg where
  | cls (c : Classification)
  | txt (s : List Char)
  | iter (ts : Finset (List Char))
  | nil

/-- Model of Classification.coerce (classified.py lines 54-81): an
existing Classification is returned, a string is parsed, and otherwise the
two iterables (None meaning the empty set) become the two frozensets. -/
def Classification.coerce (l : LevelArg)
    (comp : Option (Finset (List Char))) : PyResult Classification :=
  match l with
  | .cls c => .ok c
  | .txt s => parse_classification_string s
  | .iter ts => .ok ⟨ts, comp.getD ∅⟩
  | .nil => .ok ⟨∅, comp.getD ∅⟩

/-- The sorted(,) enumeration Python's repr applies to a frozenset of
tokens, using the lexicographic order on strings. -/
def sortTokens (s : Finset (List Char)) : List (List Char) :=
  s.sort (· ≤ ·)

/-- The level part of the textual form built by Classification.__repr__:
the sorted level tokens joined by "/", or the literal UNCLASSIFIED when
the level set is empty. -/
def level_part (c : Classification) : List Char :=
  if 0 < c.level.card then interL ['/'] (sortTokens c.level)
  else strL "UNCLASSIFIED"

/-- The compartment part of the textual form built by
Classification.__repr__: the sorted compartment tokens joined by "/". -/
def comp_part (c : Classification) : List Char :=
  interL ['/'] (sortTokens c.compartment)

/-- Model of Classification.__repr__ (classified.py lines 83-94): the
level part, then, when the compartment part is non-empty, "//" and the
compartment part, all wrapped in parentheses. -/
def repr_marking (c : Classification) : List Char :=
  if 0 < (comp_part c).length then
    '(' :: ((level_part c ++ strL "//" ++ comp_part c) ++ [')'])
  else
    '(' :: (level_part c ++ [')'])

/-- No two consecutive slashes occur in the string. -/
def noDouble : List Char → Bool
  | [] => true
  | [_] => true
  | c :: d :: rest => !(c = '/' && d = '/') && noDouble (d :: rest)

/-- The string does not end in a slash. -/
def lastNotSlash : List Char → Bool
  | [] => true
  | [c] => !(c = '/')
  | _ :: d :: rest => lastNotSlash (d :: rest)

/-- A well-formed marking token for the round-trip property of claim C8:
non-empty, free of slashes and parentheses, and carrying no surrounding
whitespace. -/
def goodToken (t : List Char) : Prop :=
  t ≠ [] ∧ '/' ∉ t ∧ '(' ∉ t ∧ ')' ∉ t ∧ trimL t = t

instance (t : List Char) : Decidable (goodToken t) := by
  unfold goodToken
  infer_instance

/-!  Theorems. -/

/-- Unfolding of union over a cons cell. -/
theorem union_cons (d : Classification) (rest : List Classification) :
    union (d :: rest) =
      ⟨d.level ∪ (union rest).level,
       d.compartment ∪ (union rest).compartment⟩ := rfl

/-- Every member of the input sequence contributes both of its component
sets to the union. -/
theorem mem_subset_union (c : Classification) (l : List Classification)
    (h : c ∈ l) :
    c.level ⊆ (union l).level ∧ c.compartment ⊆ (union l).compartment := by
  induction l with
  | nil => cases h
  | cons d rest ih =>
      rw [union_cons]
      rcases List.mem_cons.mp h with h1 | h2
      · subst h1
        exact ⟨Finset.subset_union_left, Finset.subset_union_left⟩
      · rcases ih h2 with ⟨hl, hc⟩
        exact ⟨hl.trans Finset.subset_union_right,
               hc.trans Finset.subset_union_right⟩

/-- Claim C2 (evidence of the code bug): evaluating the code's __lt__ at
the failing input Classification(["A"],[]) < Classification(["A"],[])
yields True, because the second clause combines level ⊆ level with
_is_subset(∅,∅) = True; the claimed two-clause proper-subset rule (which
the repository's own test, tests/test_classification.py line 19, asserts
via `assert not (A < Classification.coerce("A"))`) evaluates to False
there. -/
theorem claim2_lt_code_bug :
    Classification.lt ⟨{strL "A"}, ∅⟩ ⟨{strL "A"}, ∅⟩ = true ∧
    ¬ lt_claimed ⟨{strL "A"}, ∅⟩ ⟨{strL "A"}, ∅⟩ := by decide

/-- Claim C3: union is commutative, associative and idempotent, is an
upper bound (per the code's __le__) of both binary arguments and of every
member of an arbitrary input sequence, and the union of the empty sequence
is the bottom element Classification([],[]). -/
theorem claim3_union_lattice_laws (a b c : Classification)
    (l : List Classification) (hc : c ∈ l) :
    union [a, b] = union [b, a] ∧
    union [union [a, b], c] = union [a, union [b, c]] ∧
    union [a, a] = a ∧
    Classification.le a (union [a, b]) = true ∧
    Classification.le b (union [a, b]) = true ∧
    Classification.le c (union l) = true ∧
    union [] = Classification.bottom := by
  refine ⟨?_, ?_, ?_, ?_, ?_, ?_, rfl⟩
  · ext x <;> simp [union] <;> tauto
  · ext x <;> simp [union]
  · ext x <;> simp [union]
  · simp only [Classification.le, Bool.and_eq_true, decide_eq_true_eq]
    exact mem_subset_union a [a, b] (by simp)
  · simp only [Classification.le, Bool.and_eq_true, decide_eq_true_eq]
    exact mem_subset_union b [a, b] (by simp)
  · simp only [Classification.le, Bool.and_eq_true, decide_eq_true_eq]
    exact mem_subset_union c l hc


/-- Witness for claim C3 at concrete markings. -/
theorem claim3_union_lattice_laws_w :
    union [⟨{strL "A"}, ∅⟩, ⟨{strL "B"}, ∅⟩] =
      union [⟨{strL "B"}, ∅⟩, ⟨{strL "A"}, ∅⟩] ∧
    union [union [⟨{strL "A"}, ∅⟩, ⟨{strL "B"}, ∅⟩], ⟨∅, {strL "c"}⟩] =
      union [⟨{strL "A"}, ∅⟩, union [⟨{strL "B"}, ∅⟩, ⟨∅, {strL "c"}⟩]] ∧
    union [⟨{strL "A"}, ∅⟩, ⟨{strL "A"}, ∅⟩] = ⟨{strL "A"}, ∅⟩ ∧
    Classification.le ⟨{strL "A"}, ∅⟩
      (union [⟨{strL "A"}, ∅⟩, ⟨{strL "B"}, ∅⟩]) = true ∧
    Classification.le ⟨{strL "B"}, ∅⟩
      (union [⟨{strL "A"}, ∅⟩, ⟨{strL "B"}, ∅⟩]) = true ∧
    Classification.le ⟨∅, {strL "c"}⟩ (union [⟨∅, {strL "c"}⟩]) = true ∧
    union [] = Classification.bottom :=
  claim3_union_lattice_laws ⟨{strL "A"}, ∅⟩ ⟨{strL "B"}, ∅⟩ ⟨∅, {strL "c"}⟩
    [⟨∅, {strL "c"}⟩] (by decide)

/-- Membership in the level set of a union of markings. -/
theorem mem_union_level (l : List Classification) (x : List Char) :
    x ∈ (union l).level ↔ ∃ c ∈ l, x ∈ c.level := by
  induction l with
  | nil => simp [union]
  | cons c rest ih =>
      rw [union_cons]
      simp [Finset.mem_union, ih]

/-- Membership in the compartment set of a union of markings. -/
theorem mem_union_compartment (l : List Classification) (x : List Char) :
    x ∈ (union l).compartment ↔ ∃ c ∈ l, x ∈ c.compartment := by
  induction l with
  | nil => simp [union]
  | cons c rest ih =>
      rw [union_cons]
      simp [Finset.mem_union, ih]

/-- The nested union computed by map_many equals the union of the
flattened sequence of markings. -/
theorem union_pair_flat (l₁ l₂ : List Classification) :
    union [union l₁, union l₂] = union (l₁ ++ l₂) := by
  ext x
  · simp only [mem_union_level, List.mem_append, List.mem_cons,
      List.not_mem_nil, or_false]
    constructor
    · rintro ⟨c, hc | hc, hx⟩ <;> subst hc <;>
        rcases (mem_union_level _ x).mp hx with ⟨d, hd, hxd⟩
      · exact ⟨d, Or.inl hd, hxd⟩
      · exact ⟨d, Or.inr hd, hxd⟩
    · rintro ⟨c, hc | hc, hx⟩
      · exact ⟨union l₁, Or.inl rfl, (mem_union_level _ x).mpr ⟨c, hc, hx⟩⟩
      · exact ⟨union l₂, Or.inr rfl, (mem_union_level _ x).mpr ⟨c, hc, hx⟩⟩
  · simp only [mem_union_compartment, List.mem_append, List.mem_cons,
      List.not_mem_nil, or_false]
    constructor
    · rintro ⟨c, hc | hc, hx⟩ <;> subst hc <;>
        rcases (mem_union_compartment _ x).mp hx with ⟨d, hd, hxd⟩
      · exact ⟨d, Or.inl hd, hxd⟩
      · exact ⟨d, Or.inr hd, hxd⟩
    · rintro ⟨c, hc | hc, hx⟩
      · exact ⟨union l₁, Or.inl rfl, (mem_union_compartment _ x).mpr ⟨c, hc, hx⟩⟩
      · exact ⟨union l₂, Or.inr rfl, (mem_union_compartment _ x).mpr ⟨c, hc, hx⟩⟩

/-- On every path, the marking of a map_many result is the union of the
contributed markings of all the arguments. -/
theorem map_many_classification {V : Type}
    (f : List (Slot V) → List (String × Slot V) → PyResult (Slot V))
    (args : List (CoVal V)) (kwargs : List (String × CoVal V)) :
    (map_many f args kwargs).classification =
      union (args.map CoVal.contributed ++
             kwargs.map (fun p => CoVal.contributed p.2)) := by
  rw [← union_pair_flat]
  simp only [map_many]
  split <;> simp only [List.map_map] <;> rfl

/-- Claim C1: for every function and any mix of raw, Maybe and Classified
positional and keyword arguments, the marking of the map_many (evaluate)
result equals the union of the markings of all coerced arguments (raw and
Maybe arguments contributing the bottom marking), and therefore dominates
(per the code's __ge__) the marking contributed by every input argument.
The equality holds on every path: the marking is computed before the
function and the unwrapping run, so the valid-result path and both error
paths (an argument in error state, or the function raising) carry the same
marking. -/
theorem claim1_map_many_marking {V : Type}
    (f : List (Slot V) → List (String × Slot V) → PyResult (Slot V))
    (args : List (CoVal V)) (kwargs : List (String × CoVal V))
    (a : CoVal V) (kv : String × CoVal V)
    (ha : a ∈ args) (hkv : kv ∈ kwargs) :
    (map_many f args kwargs).classification =
      union (args.map CoVal.contributed ++
             kwargs.map (fun p => CoVal.contributed p.2)) ∧
    Classification.ge (map_many f args kwargs).classification
      (CoVal.contributed a) = true ∧
    Classification.ge (map_many f args kwargs).classification
      (CoVal.contributed kv.2) = true := by
  refine ⟨map_many_classification f args kwargs, ?_, ?_⟩
  · rw [map_many_classification f args kwargs]
    simp only [Classification.ge, Bool.and_eq_true, decide_eq_true_eq]
    exact mem_subset_union (CoVal.contributed a) _
      (List.mem_append.mpr (Or.inl (List.mem_map.mpr ⟨a, ha, rfl⟩)))
  · rw [map_many_classification f args kwargs]
    simp only [Classification.ge, Bool.and_eq_true, decide_eq_true_eq]
    exact mem_subset_union (CoVal.contributed kv.2) _
      (List.mem_append.mpr (Or.inr (List.mem_map.mpr ⟨kv, hkv, rfl⟩)))

/-- Witness for claim C1: the spec's evaluate example shape, a Classified
positional argument marked (A), a raw positional argument, and a
Classified keyword argument marked (B). -/
theorem claim1_map_many_marking_w :
    (map_many (fun u _ => .ok (u.headD (.val 0)))
        [.cls (Classified.just (.val 1) (some ⟨{strL "A"}, ∅⟩)),
         .raw (.val 2)]
        [("b", .cls (Classified.just (.val 3) (some ⟨{strL "B"}, ∅⟩)))] :
        Classified Nat).classification =
      union
        ([.cls (Classified.just (Slot.val 1) (some ⟨{strL "A"}, ∅⟩)),
          .raw (Slot.val 2)].map CoVal.contributed ++
         [("b", CoVal.cls (Classified.just (Slot.val 3)
            (some ⟨{strL "B"}, ∅⟩)))].map (fun p => CoVal.contributed p.2)) ∧
    Classification.ge
      (map_many (fun u _ => .ok (u.headD (.val 0)))
        [.cls (Classified.just (.val 1) (some ⟨{strL "A"}, ∅⟩)),
         .raw (.val 2)]
        [("b", .cls (Classified.just (.val 3) (some ⟨{strL "B"}, ∅⟩)))] :
        Classified Nat).classification
      (CoVal.contributed (.cls (Classified.just (.val 1)
        (some ⟨{strL "A"}, ∅⟩)))) = true ∧
    Classification.ge
      (map_many (fun u _ => .ok (u.headD (.val 0)))
        [.cls (Classified.just (.val 1) (some ⟨{strL "A"}, ∅⟩)),
         .raw (.val 2)]
        [("b", .cls (Classified.just (.val 3) (some ⟨{strL "B"}, ∅⟩)))] :
        Classified Nat).classification
      (CoVal.contributed (CoVal.cls (Classified.just (Slot.val 3)
        (some ⟨{strL "B"}, ∅⟩)))) = true :=
  claim1_map_many_marking (fun u _ => .ok (u.headD (.val 0)))
    [.cls (Classified.just (.val 1) (some ⟨{strL "A"}, ∅⟩)), .raw (.val 2)]
    [("b", .cls (Classified.just (.val 3) (some ⟨{strL "B"}, ∅⟩)))]
    (.cls (Classified.just (.val 1) (some ⟨{strL "A"}, ∅⟩)))
    ("b", .cls (Classified.just (.val 3) (some ⟨{strL "B"}, ∅⟩)))
    (by decide) (by decide)

/-- Claim C4: a unary transformation never changes the marking.  map
preserves the receiver's marking whether the receiver is in the error
state, the function returns, or the function raises, and every result
object produced by apply (apply raises no result object only when the
receiver is a valid Classified holding the MISSING sentinel, in which case
the internal self.expect() raises out of apply) carries the receiver's
marking on both the valid and invalid outcomes. -/
theorem claim4_unary_preserves_marking {V : Type} (c : Classified V)
    (f : Slot V → PyResult (Slot V)) (g : Slot V → Maybe V)
    (r : Classified V) (h : c.apply g = .ok r) :
    (c.map f).classification = c.classification ∧
    r.classification = c.classification := by
  constructor
  · unfold Classified.map
    split
    · simp [Classified.nothing]
    · split <;> simp [Classified.just, Classified.nothing]
  · unfold Classified.apply at h
    split at h
    · injection h with h'
      subst h'
      simp [Classified.nothing]
    · split at h
      · exact absurd h (by simp)
      · split at h <;> injection h with h' <;> subst h' <;>
          simp [Classified.just, Classified.nothing]

/-- Witness for claim C4 at a concrete classified value and handlers. -/
theorem claim4_unary_preserves_marking_w :
    ((Classified.just (.val 1) (some ⟨{strL "A"}, ∅⟩) : Classified Nat).map
        (fun v => .ok v)).classification = ⟨{strL "A"}, ∅⟩ ∧
    (Classified.just (Slot.val 1) (some ⟨{strL "A"}, ∅⟩) :
        Classified Nat).classification = ⟨{strL "A"}, ∅⟩ :=
  claim4_unary_preserves_marking
    (Classified.just (.val 1) (some ⟨{strL "A"}, ∅⟩)) (fun v => .ok v)
    (fun v => Maybe.just v)
    (Classified.just (.val 1) (some ⟨{strL "A"}, ∅⟩)) (by decide)

/-- Claim C7: the failure-capture semantics of map on both Maybe and
Classified.  An invalid receiver yields an invalid result carrying the
same error unchanged; a valid receiver yields a valid result of the
function's return value when the function returns, and an invalid result
storing exactly the raised exception when it raises.  The model's map is a
total function, matching the claim that map always produces a result
object. -/
theorem claim7_map_error_semantics {V : Type} (m : Maybe V)
    (x : Classified V) (f : Slot V → PyResult (Slot V)) (e : Err)
    (r : Slot V) :
    (m.error = some e → m.map f = Maybe.nothing (some (.inl e))) ∧
    (m.error = none → f m.value = .ok r → m.map f = Maybe.just r) ∧
    (m.error = none → f m.value = .raised e →
       m.map f = Maybe.nothing (some (.inl e))) ∧
    (x.error = some e →
       x.map f = Classified.nothing (some (.inl e)) (some x.classification)) ∧
    (x.error = none → f x.value = .ok r →
       x.map f = Classified.just r (some x.classification)) ∧
    (x.error = none → f x.value = .raised e →
       x.map f = Classified.nothing (some (.inl e))
         (some x.classification)) := by
  refine ⟨fun h => ?_, fun h hf => ?_, fun h hf => ?_, fun h => ?_,
    fun h hf => ?_, fun h hf => ?_⟩ <;>
    simp_all [Maybe.map, Classified.map]

/-- Witness for claim C7: one concrete instance of each of the six cases. -/
theorem claim7_map_error_semantics_w :
    ((Maybe.nothing (some (.inl (.other 3))) : Maybe Nat).map
        (fun v => .ok v) = Maybe.nothing (some (.inl (.other 3)))) ∧
    ((Maybe.just (.val 5) : Maybe Nat).map (fun v => .ok v) =
        Maybe.just (.val 5)) ∧
    ((Maybe.just (.val 5) : Maybe Nat).map (fun _ => .raised (.other 9)) =
        Maybe.nothing (some (.inl (.other 9)))) ∧
    ((Classified.nothing (some (.inl (.other 3)))
          (some ⟨{strL "A"}, ∅⟩) : Classified Nat).map (fun v => .ok v) =
        Classified.nothing (some (.inl (.other 3)))
          (some ⟨{strL "A"}, ∅⟩)) ∧
    ((Classified.just (.val 5) (some ⟨{strL "A"}, ∅⟩) :
          Classified Nat).map (fun v => .ok v) =
        Classified.just (.val 5) (some ⟨{strL "A"}, ∅⟩)) ∧
    ((Classified.just (.val 5) (some ⟨{strL "A"}, ∅⟩) :
          Classified Nat).map (fun _ => .raised (.other 9)) =
        Classified.nothing (some (.inl (.other 9)))
          (some ⟨{strL "A"}, ∅⟩)) := by
  refine ⟨?_, ?_, ?_, ?_, ?_, ?_⟩
  · exact (claim7_map_error_semantics (Maybe.nothing (some (.inl (.other 3))))
      (Classified.just (.val 0) none) (fun v => .ok v) (.other 3)
      (.val 0)).1 rfl
  · exact (claim7_map_error_semantics (Maybe.just (.val 5))
      (Classified.just (.val 0) none) (fun v => .ok v) (.other 9)
      (.val 5)).2.1 rfl rfl
  · exact (claim7_map_error_semantics (Maybe.just (.val 5))
      (Classified.just (.val 0) none) (fun _ => .raised (.other 9))
      (.other 9) (.val 5)).2.2.1 rfl rfl
  · exact (claim7_map_error_semantics (Maybe.just (.val 0))
      (Classified.nothing (some (.inl (.other 3))) (some ⟨{strL "A"}, ∅⟩))
      (fun v => .ok v) (.other 3) (.val 0)).2.2.2.1 rfl
  · exact (claim7_map_error_semantics (Maybe.just (.val 0))
      (Classified.just (.val 5) (some ⟨{strL "A"}, ∅⟩))
      (fun v => .ok v) (.other 9) (.val 5)).2.2.2.2.1 rfl rfl
  · exact (claim7_map_error_semantics (Maybe.just (.val 0))
      (Classified.just (.val 5) (some ⟨{strL "A"}, ∅⟩))
      (fun _ => .raised (.other 9)) (.other 9) (.val 5)).2.2.2.2.2 rfl rfl

/-- Counterexample for claim C6 as stated: a valid Classified whose value
slot holds the MISSING sentinel (Classified.just(MISSING)) is valid, yet
expect does not return the payload but raises a bare ExpectationError
(classified.py lines 459-460). -/
theorem claim6_cex_missing_payload :
    (Classified.just Slot.missing none : Classified Nat).is_valid = true ∧
    (Classified.just Slot.missing none : Classified Nat).expect none =
      .raised (.expectation none) := by decide

/-- Claim C6 as amended: on an invalid Maybe or Classified, expect fails
with the override itself when the override is an error value, with an
ExpectationError carrying the override string when the override is a
string (regardless of the stored error), and otherwise with the stored
error (every invalid value of the model stores an error, so the code's
default-error fallback is unreachable).  On a valid value expect returns
the payload, except that a valid Classified holding the MISSING sentinel
fails with a bare ExpectationError. -/
theorem claim6_amended_expect {V : Type} (m : Maybe V) (x : Classified V)
    (e e2 : Err) (s : String) (msg : Option (Err ⊕ String)) :
    (m.error = some e →
       m.expect (some (.inl e2)) = .raised e2 ∧
       m.expect (some (.inr s)) = .raised (.expectation (some s)) ∧
       m.expect none = .raised e) ∧
    (m.error = none → m.expect msg = .ok m.value) ∧
    (x.error = some e →
       x.expect (some (.inl e2)) = .raised e2 ∧
       x.expect (some (.inr s)) = .raised (.expectation (some s)) ∧
       x.expect none = .raised e) ∧
    (x.error = none → x.value ≠ .missing → x.expect msg = .ok x.value) ∧
    (x.error = none → x.value = .missing →
       x.expect msg = .raised (.expectation none)) := by
  refine ⟨fun h => ?_, fun h => ?_, fun h => ?_, fun h hv => ?_,
    fun h hv => ?_⟩ <;>
    simp_all [Maybe.expect, Classified.expect]

/-- Witness for claim C6 at concrete values: the three override shapes on
an invalid value, a valid Maybe, a valid Classified, and the MISSING
exception case. -/
theorem claim6_amended_expect_w :
    ((Maybe.nothing (some (.inl (.other 3))) : Maybe Nat).expect
        (some (.inl (.other 4))) = .raised (.other 4) ∧
     (Maybe.nothing (some (.inl (.other 3))) : Maybe Nat).expect
        (some (.inr "boom")) = .raised (.expectation (some "boom")) ∧
     (Maybe.nothing (some (.inl (.other 3))) : Maybe Nat).expect none =
        .raised (.other 3)) ∧
    ((Maybe.just (.val 7) : Maybe Nat).expect none = .ok (.val 7)) ∧
    ((Classified.just (.val 7) none : Classified Nat).expect none =
        .ok (.val 7)) ∧
    ((Classified.just Slot.missing none : Classified Nat).expect
        (some (.inr "s")) = .raised (.expectation none)) := by
  refine ⟨?_, ?_, ?_, ?_⟩
  · exact (claim6_amended_expect (Maybe.nothing (some (.inl (.other 3))))
      (Classified.just (.val 0) none) (.other 3) (.other 4) "boom"
      none).1 rfl
  · exact (claim6_amended_expect (Maybe.just (.val 7))
      (Classified.just (.val 0) none) (.other 3) (.other 4) "boom"
      none).2.1 rfl
  · exact (claim6_amended_expect (Maybe.just (.val 0))
      (Classified.just (.val 7) none) (.other 3) (.other 4) "boom"
      none).2.2.2.1 rfl (by decide)
  · exact (claim6_amended_expect (Maybe.just (.val 0))
      (Classified.just Slot.missing none) (.other 3) (.other 4) "boom"
      (some (.inr "s"))).2.2.2.2 rfl rfl

/-- Counterexample for claim C9 as stated: coercing a valid Maybe holding
the MISSING sentinel (Maybe.just(MISSING)) does not preserve the valid
state; classified.py lines 330-331 turn it into an invalid Classified
with the default error. -/
theorem claim9_cex_missing_maybe :
    (Maybe.just Slot.missing : Maybe Nat).is_valid = true ∧
    (Classified.coerce (.mb (Maybe.just Slot.missing)) none :
        Classified Nat).is_valid = false := by decide

/-- Claim C9 as amended: Classified.coerce returns an already-Classified
argument unchanged with its existing marking (the marking argument is
ignored); a Maybe argument whose payload is not the MISSING sentinel keeps
its valid/invalid state and stored error and gets the given marking (the
default being bottom); a valid Maybe holding the MISSING sentinel becomes
an invalid Classified with the default error and the given marking; and a
raw value is wrapped as valid with the given marking. -/
theorem claim9_amended_coerce {V : Type} (d : Classified V) (m : Maybe V)
    (v : Slot V) (cl : Option Classification) (e : Err) :
    Classified.coerce (.cls d) cl = d ∧
    (m.error = some e →
       Classified.coerce (.mb m) cl =
         Classified.nothing (some (.inl e))
           (some (cl.getD Classification.bottom))) ∧
    (m.error = none → m.value ≠ .missing →
       Classified.coerce (.mb m) cl =
         Classified.just m.value (some (cl.getD Classification.bottom))) ∧
    (m.error = none → m.value = .missing →
       Classified.coerce (.mb m) cl =
         Classified.nothing none (some (cl.getD Classification.bottom))) ∧
    Classified.coerce (.raw v) cl =
      Classified.just v (some (cl.getD Classification.bottom)) := by
  refine ⟨rfl, fun h => ?_, fun h hv => ?_, fun h hv => ?_, rfl⟩ <;>
    simp_all [Classified.coerce]

/-- Witness for claim C9 at concrete values. -/
theorem claim9_amended_coerce_w :
    (Classified.coerce
        (.cls (Classified.just (.val 1) (some ⟨{strL "A"}, ∅⟩)))
        (some ⟨{strL "B"}, ∅⟩) =
      (Classified.just (.val 1) (some ⟨{strL "A"}, ∅⟩) :
        Classified Nat)) ∧
    (Classified.coerce (.mb (Maybe.nothing (some (.inl (.other 3)))))
        (some ⟨{strL "B"}, ∅⟩) =
      (Classified.nothing (some (.inl (.other 3)))
        (some ⟨{strL "B"}, ∅⟩) : Classified Nat)) ∧
    (Classified.coerce (.mb (Maybe.just (.val 7)))
        (some ⟨{strL "B"}, ∅⟩) =
      (Classified.just (.val 7) (some ⟨{strL "B"}, ∅⟩) :
        Classified Nat)) ∧
    (Classified.coerce (.raw (.val 9)) none =
      (Classified.just (.val 9) (some Classification.bottom) :
        Classified Nat)) := by
  refine ⟨?_, ?_, ?_, ?_⟩
  · exact (claim9_amended_coerce
      (Classified.just (.val 1) (some ⟨{strL "A"}, ∅⟩))
      (Maybe.just (.val 0)) (.val 9) (some ⟨{strL "B"}, ∅⟩) (.other 3)).1
  · exact (claim9_amended_coerce (Classified.just (.val 0) none)
      (Maybe.nothing (some (.inl (.other 3)))) (.val 9)
      (some ⟨{strL "B"}, ∅⟩) (.other 3)).2.1 rfl
  · exact (claim9_amended_coerce (Classified.just (.val 0) none)
      (Maybe.just (.val 7)) (.val 9) (some ⟨{strL "B"}, ∅⟩)
      (.other 3)).2.2.1 rfl (by decide)
  · exact (claim9_amended_coerce (Classified.just (.val 0) none)
      (Maybe.just (.val 7)) (.val 9) none (.other 3)).2.2.2.2

/-- Claim C10: when the handler given to if_error on an invalid value
returns an already-Classified value, the result is that Classified
unchanged, carrying the handler's own marking; the receiver's marking is
reattached only when the handler returns a plain Maybe. -/
theorem claim10_if_error_handler {V : Type} (x : Classified V)
    (f : Err → CoVal V) (e : Err) (d : Classified V) (m : Maybe V) :
    (x.error = some e → f e = .cls d → x.if_error f = d) ∧
    (x.error = some e → f e = .mb m →
       (x.if_error f).classification = x.classification) := by
  constructor
  · intro h hf
    simp [Classified.if_error, h, hf, Classified.coerce]
  · intro h hf
    simp only [Classified.if_error, h, hf, Classified.coerce]
    cases hm : m.error
    · cases hv : m.value <;> simp [Classified.just, Classified.nothing]
    · simp [Classified.nothing]

/-- Witness for claim C10 at concrete values: a handler returning a
Classified with its own marking, and one returning a plain Maybe. -/
theorem claim10_if_error_handler_w :
    ((Classified.nothing (some (.inl (.other 3)))
        (some ⟨{strL "A"}, ∅⟩) : Classified Nat).if_error
        (fun _ => .cls (Classified.just (.val 1) (some ⟨{strL "B"}, ∅⟩))) =
      Classified.just (.val 1) (some ⟨{strL "B"}, ∅⟩)) ∧
    ((Classified.nothing (some (.inl (.other 3)))
        (some ⟨{strL "A"}, ∅⟩) : Classified Nat).if_error
        (fun _ => .mb (Maybe.just (.val 1)))).classification =
      (Classified.nothing (some (.inl (.other 3)))
        (some ⟨{strL "A"}, ∅⟩) : Classified Nat).classification := by
  constructor
  · exact (claim10_if_error_handler
      (Classified.nothing (some (.inl (.other 3))) (some ⟨{strL "A"}, ∅⟩))
      (fun _ => .cls (Classified.just (.val 1) (some ⟨{strL "B"}, ∅⟩)))
      (.other 3) (Classified.just (.val 1) (some ⟨{strL "B"}, ∅⟩))
      (Maybe.just (.val 1))).1 rfl rfl
  · exact (claim10_if_error_handler
      (Classified.nothing (some (.inl (.other 3))) (some ⟨{strL "A"}, ∅⟩))
      (fun _ => .mb (Maybe.just (.val 1)))
      (.other 3) (Classified.just (.val 1) (some ⟨{strL "B"}, ∅⟩))
      (Maybe.just (.val 1))).2 rfl rfl

/-- A character that does not occur is never found. -/
theorem ffindIdx_eq_none (c : Char) (s : List Char) (h : c ∉ s) :
    ffindIdx c s = none := by
  induction s with
  | nil => rfl
  | cons d rest ih =>
      simp only [List.mem_cons, not_or] at h
      simp [ffindIdx, Ne.symm h.1, ih h.2]

/-- A character that occurs is found. -/
theorem ffindIdx_isSome (c : Char) (s : List Char) (h : c ∈ s) :
    (ffindIdx c s).isSome = true := by
  induction s with
  | nil => cases h
  | cons d rest ih =>
      by_cases hd : d = c
      · simp [ffindIdx, hd]
      · rcases List.mem_cons.mp h with h1 | h2
        · exact absurd h1.symm hd
        · simp only [ffindIdx, if_neg hd]
          rcases Option.isSome_iff_exists.mp (ih h2) with ⟨i, hi⟩
          simp [hi]

/-- A character that does not occur is never found from the right. -/
theorem rfindIdx_eq_none (c : Char) (s : List Char) (h : c ∉ s) :
    rfindIdx c s = none := by
  induction s with
  | nil => rfl
  | cons d rest ih =>
      simp only [List.mem_cons, not_or] at h
      simp [rfindIdx, ih h.2, Ne.symm h.1]

/-- A character that occurs is found from the right. -/
theorem rfindIdx_isSome (c : Char) (s : List Char) (h : c ∈ s) :
    (rfindIdx c s).isSome = true := by
  induction s with
  | nil => cases h
  | cons d rest ih =>
      rcases List.mem_cons.mp h with h1 | h2
      · subst h1
        simp only [rfindIdx]
        cases hr : rfindIdx c rest <;> simp [hr]
      · simp only [rfindIdx]
        rcases Option.isSome_iff_exists.mp (ih h2) with ⟨i, hi⟩
        simp [hi]

/-- The last occurrence of the closing character appended to a string free
of it sits at the end. -/
theorem rfindIdx_append_last (c : Char) (s : List Char) (h : c ∉ s) :
    rfindIdx c (s ++ [c]) = some s.length := by
  induction s with
  | nil => simp [rfindIdx]
  | cons d rest ih =>
      simp only [List.mem_cons, not_or] at h
      simp [rfindIdx, ih h.2]

/-- Removing the parentheses wrapped around a paren-free body returns the
body: the first "(" is at index 0 and the last ")" at the end. -/
theorem remove_parens_wrap (s : List Char) (_h1 : '(' ∉ s) (h2 : ')' ∉ s) :
    remove_parens ('(' :: (s ++ [')'])) = .ok s := by
  have hr : rfindIdx ')' ('(' :: (s ++ [')'])) = some (s.length + 1) := by
    simp [rfindIdx, rfindIdx_append_last ')' s h2]
  have hf : ffindIdx '(' ('(' :: (s ++ [')'])) = some 0 := by
    simp [ffindIdx]
  simp only [remove_parens, hf, hr]
  congr 1
  rw [List.take_succ_cons, List.take_left, List.drop_succ_cons,
    List.drop_zero]

/-- Removing parentheses from a paren-free string is the identity. -/
theorem remove_parens_nop (s : List Char) (h1 : '(' ∉ s) (h2 : ')' ∉ s) :
    remove_parens s = .ok s := by
  simp [remove_parens, ffindIdx_eq_none '(' s h1, rfindIdx_eq_none ')' s h2]

/-- A string containing "(" but no ")" fails paren removal. -/
theorem remove_parens_mismatch (s : List Char) (h1 : '(' ∈ s)
    (h2 : ')' ∉ s) : remove_parens s = .raised .valueError := by
  rcases Option.isSome_iff_exists.mp (ffindIdx_isSome '(' s h1) with ⟨i, hi⟩
  simp [remove_parens, hi, rfindIdx_eq_none ')' s h2]

/-- A dropWhile that changes nothing certifies that the head fails the
predicate. -/
theorem head_false_of_dropWhile_eq_self (p : Char → Bool) (a : Char)
    (t : List Char) (h : (a :: t).dropWhile p = a :: t) : p a = false := by
  by_contra hp
  simp only [Bool.not_eq_false] at hp
  rw [List.dropWhile_cons_of_pos hp] at h
  have hle : (t.dropWhile p).length ≤ t.length :=
    (List.dropWhile_suffix p).length_le
  rw [h] at hle
  simp at hle

/-- A string equal to its own strip neither starts nor ends with
whitespace: both dropWhile passes inside trimL are the identity. -/
theorem trim_eq_self_parts (s : List Char) (h : trimL s = s) :
    s.dropWhile wsb = s ∧ s.reverse.dropWhile wsb = s.reverse := by
  have h1le : (s.dropWhile wsb).length ≤ s.length :=
    (List.dropWhile_suffix wsb).length_le
  have h2le : (((s.dropWhile wsb).reverse).dropWhile wsb).length ≤
      ((s.dropWhile wsb).reverse).length :=
    (List.dropWhile_suffix wsb).length_le
  have hlen : (trimL s).length = s.length := by rw [h]
  have hlen2 : (trimL s).length =
      ((s.dropWhile wsb).reverse.dropWhile wsb).length := by
    simp [trimL]
  have hfst : (s.dropWhile wsb).length = s.length := by
    have hrev : ((s.dropWhile wsb).reverse).length =
        (s.dropWhile wsb).length := by simp
    omega
  have hdrop1 : s.dropWhile wsb = s :=
    (List.dropWhile_suffix wsb).eq_of_length hfst
  refine ⟨hdrop1, ?_⟩
  have hsnd : (s.reverse.dropWhile wsb).length = s.reverse.length := by
    rw [hdrop1] at hlen2
    simp only [List.length_reverse]
    omega
  exact (List.dropWhile_suffix wsb).eq_of_length hsnd

/-- The head of a non-empty token with no surrounding whitespace is not
whitespace. -/
theorem head_not_ws_of_trim (a : Char) (t : List Char)
    (h : trimL (a :: t) = a :: t) : wsb a = false :=
  head_false_of_dropWhile_eq_self wsb a t (trim_eq_self_parts _ h).1

/-- The last character of a token with no surrounding whitespace is not
whitespace. -/
theorem last_not_ws_of_trim (s : List Char) (a : Char) (t : List Char)
    (h : trimL s = s) (hrev : s.reverse = a :: t) : wsb a = false := by
  have h2 := (trim_eq_self_parts s h).2
  rw [hrev] at h2
  exact head_false_of_dropWhile_eq_self wsb a t h2

/-- A string whose two ends are free of whitespace equals its own strip. -/
theorem trim_eq_self_of_ends (s : List Char)
    (h1 : ∀ a, s.head? = some a → wsb a = false)
    (h2 : ∀ a, s.getLast? = some a → wsb a = false) : trimL s = s := by
  have hd : s.dropWhile wsb = s := by
    cases s with
    | nil => rfl
    | cons a t =>
        rw [List.dropWhile_cons_of_neg]
        simp [h1 a rfl]
  have hrev : s.reverse.dropWhile wsb = s.reverse := by
    cases hr : s.reverse with
    | nil => rfl
    | cons a t =>
        rw [List.dropWhile_cons_of_neg]
        have := h2 a
        rw [← List.head?_reverse, hr] at this
        simp [this rfl]
  simp [trimL, hd, hrev]

/-- A slash-free string splits on "/" into itself alone. -/
theorem splitSlash_no_slash (l : List Char) (h : '/' ∉ l) :
    splitSlash l = [l] := by
  induction l with
  | nil => rfl
  | cons c cs ih =>
      simp only [List.mem_cons, not_or] at h
      have hc : ¬ c = '/' := fun hh => h.1 hh.symm
      simp [splitSlash, hc, ih h.2]

/-- Splitting on "/" after a slash-free piece peels that piece off. -/
theorem splitSlash_append (p rest : List Char) (h : '/' ∉ p) :
    splitSlash (p ++ '/' :: rest) = p :: splitSlash rest := by
  induction p with
  | nil => simp [splitSlash]
  | cons c p' ih =>
      simp only [List.mem_cons, not_or] at h
      have hc : ¬ c = '/' := fun hh => h.1 hh.symm
      simp [splitSlash, hc, ih h.2]

/-- Splitting on "/" inverts joining slash-free pieces with "/". -/
theorem splitSlash_interL (ts : List (List Char)) (hne : ts ≠ [])
    (h : ∀ t ∈ ts, '/' ∉ t) : splitSlash (interL ['/'] ts) = ts := by
  induction ts with
  | nil => exact absurd rfl hne
  | cons t rest ih =>
      cases rest with
      | nil => exact splitSlash_no_slash t (h t (by simp))
      | cons t2 rest2 =>
          have hi : interL ['/'] (t :: t2 :: rest2) =
              t ++ '/' :: interL ['/'] (t2 :: rest2) := by
            simp [interL]
          rw [hi, splitSlash_append t _ (h t (by simp)),
            ih (by simp) (fun u hu => h u (List.mem_cons_of_mem t hu))]

/-- A string with no two consecutive slashes splits on "//" into itself
alone. -/
theorem splitDSlash_noDouble (l : List Char) (h : noDouble l = true) :
    splitDSlash l = [l] := by
  induction l with
  | nil => rfl
  | cons c cs ih =>
      cases cs with
      | nil => rfl
      | cons d rest =>
          simp only [noDouble, Bool.and_eq_true, Bool.not_eq_true'] at h
          have hcd : ¬ (c = '/' ∧ d = '/') := by
            intro ⟨hc, hd⟩
            simp [hc, hd] at h
          simp [splitDSlash, hcd, ih h.2]

/-- Splitting on "//" after a piece with no double slash that does not end
in a slash peels that piece off. -/
theorem splitDSlash_append (a b : List Char) :
    noDouble a = true → lastNotSlash a = true →
    splitDSlash (a ++ '/' :: '/' :: b) = a :: splitDSlash b := by
  induction a with
  | nil => intro _ _; simp [splitDSlash]
  | cons c cs ih =>
      intro hnd hls
      cases cs with
      | nil =>
          simp only [lastNotSlash, Bool.not_eq_true'] at hls
          have hc : ¬ c = '/' := by simpa using hls
          have hcd : ¬ (c = '/' ∧ '/' = '/') := fun hh => hc hh.1
          simp [splitDSlash, hcd, hc]
      | cons d a' =>
          simp only [noDouble, Bool.and_eq_true, Bool.not_eq_true'] at hnd
          simp only [lastNotSlash] at hls
          have hcd : ¬ (c = '/' ∧ d = '/') := by
            intro ⟨hc, hd⟩
            simp [hc, hd] at hnd
          have hrw := ih hnd.2 hls
          simp only [List.cons_append]
          simp only [splitDSlash]
          rw [if_neg hcd]
          simp only [List.cons_append] at hrw
          rw [hrw]

/-- Joining non-empty pieces yields a non-empty string. -/
theorem interL_ne_nil (sep : List Char) (ts : List (List Char))
    (hne : ts ≠ []) (h : ∀ t ∈ ts, t ≠ []) : interL sep ts ≠ [] := by
  cases ts with
  | nil => exact absurd rfl hne
  | cons t rest =>
      cases rest with
      | nil => exact h t (by simp)
      | cons t2 rest2 =>
          have ht : t ≠ [] := h t (by simp)
          cases t with
          | nil => exact absurd rfl ht
          | cons a t' => simp [interL]

/-- The head of a join of pieces whose first piece is non-empty is the
head of the first piece. -/
theorem interL_head? (sep : List Char) (t : List Char)
    (ts : List (List Char)) (ht : t ≠ []) :
    (interL sep (t :: ts)).head? = t.head? := by
  cases ts with
  | nil => rfl
  | cons t2 rest2 =>
      cases t with
      | nil => exact absurd rfl ht
      | cons a t' => simp [interL]

/-- The last element of a join of non-empty pieces is the last element of
one of the pieces. -/
theorem interL_getLast? (sep : List Char) (ts : List (List Char))
    (hne : ts ≠ []) (h : ∀ t ∈ ts, t ≠ []) :
    ∃ t ∈ ts, (interL sep ts).getLast? = t.getLast? := by
  induction ts with
  | nil => exact absurd rfl hne
  | cons t rest ih =>
      cases rest with
      | nil => exact ⟨t, by simp, rfl⟩
      | cons t2 rest2 =>
          rcases ih (by simp) (fun u hu => h u (List.mem_cons_of_mem t hu))
            with ⟨u, hu, hlast⟩
          refine ⟨u, List.mem_cons_of_mem t hu, ?_⟩
          have hM : interL sep (t2 :: rest2) ≠ [] :=
            interL_ne_nil sep _ (by simp)
              (fun v hv => h v (List.mem_cons_of_mem t hv))
          have : (interL sep (t :: t2 :: rest2)).getLast? =
              (interL sep (t2 :: rest2)).getLast? := by
            show ((t ++ sep) ++ interL sep (t2 :: rest2)).getLast? = _
            rw [List.getLast?_append]
            rcases List.exists_cons_of_ne_nil hM with ⟨b, M', hbM⟩
            have hsome : (interL sep (t2 :: rest2)).getLast?.isSome := by
              rw [hbM]
              simp [List.getLast?_cons]
            rcases Option.isSome_iff_exists.mp hsome with ⟨w, hw⟩
            simp [hw]
          rw [this, hlast]

/-- Every character of a join belongs to the separator or to one of the
pieces. -/
theorem mem_interL (sep : List Char) (ts : List (List Char)) (x : Char)
    (hx : x ∈ interL sep ts) : (∃ t ∈ ts, x ∈ t) ∨ x ∈ sep := by
  induction ts with
  | nil => cases hx
  | cons t rest ih =>
      cases rest with
      | nil => exact Or.inl ⟨t, by simp, hx⟩
      | cons t2 rest2 =>
          simp only [interL, List.append_assoc, List.mem_append] at hx
          rcases hx with hx | hx | hx
          · exact Or.inl ⟨t, by simp, hx⟩
          · exact Or.inr hx
          · rcases ih hx with ⟨u, hu, hxu⟩ | hs
            · exact Or.inl ⟨u, List.mem_cons_of_mem t hu, hxu⟩
            · exact Or.inr hs

/-- A slash-free string has no double slash and does not end in one. -/
theorem noDouble_of_no_slash (l : List Char) (h : '/' ∉ l) :
    noDouble l = true ∧ lastNotSlash l = true := by
  induction l with
  | nil => exact ⟨rfl, rfl⟩
  | cons c cs ih =>
      simp only [List.mem_cons, not_or] at h
      have hc : ¬ c = '/' := fun hh => h.1 hh.symm
      rcases ih h.2 with ⟨ihd, ihl⟩
      cases cs with
      | nil => simp [noDouble, lastNotSlash, hc]
      | cons d rest =>
          have hd : ¬ d = '/' := by
            intro hh
            subst hh
            exact h.2 (List.mem_cons_self _ _)
          simp [noDouble, lastNotSlash, hc, hd, ihd, ihl]

/-- lastNotSlash is exactly the statement about the last character. -/
theorem lastNotSlash_iff (l : List Char) :
    lastNotSlash l = true ↔ ∀ a, l.getLast? = some a → ¬ a = '/' := by
  induction l with
  | nil => simp [lastNotSlash]
  | cons c cs ih =>
      cases cs with
      | nil => simp [lastNotSlash, List.getLast?_singleton]
      | cons d rest =>
          rw [List.getLast?_cons_cons]
          simpa [lastNotSlash] using ih

/-- Gluing a slash-free non-empty piece, a slash, and a string that has no
double slash and does not start with a slash keeps noDouble. -/
theorem noDouble_glue (p M : List Char) (hp : '/' ∉ p) (hpne : p ≠ [])
    (hM : noDouble M = true) (hMne : M ≠ [])
    (hhead : ∀ a, M.head? = some a → ¬ a = '/') :
    noDouble (p ++ '/' :: M) = true := by
  induction p with
  | nil => exact absurd rfl hpne
  | cons c p' ih =>
      simp only [List.mem_cons, not_or] at hp
      have hc : ¬ c = '/' := fun hh => hp.1 hh.symm
      cases p' with
      | nil =>
          rcases List.exists_cons_of_ne_nil hMne with ⟨m, M', hmM⟩
          have hm : ¬ m = '/' := hhead m (by rw [hmM]; rfl)
          subst hmM
          simp [noDouble, hc, hm, hM]
      | cons d p'' =>
          have hrec := ih hp.2 (by simp)
          simp only [List.cons_append]
          simp only [List.cons_append] at hrec
          have hd : ¬ d = '/' := by
            intro hh
            exact absurd (List.mem_cons_self d p'') (hh ▸ hp.2)
          simp [noDouble, hc, hrec]

/-- Joining non-empty slash-free pieces with "/" yields a string with no
double slash. -/
theorem interL_noDouble (ts : List (List Char)) (hne : ts ≠ [])
    (h : ∀ t ∈ ts, t ≠ [] ∧ '/' ∉ t) :
    noDouble (interL ['/'] ts) = true := by
  induction ts with
  | nil => exact absurd rfl hne
  | cons t rest ih =>
      cases rest with
      | nil => exact (noDouble_of_no_slash t (h t (by simp)).2).1
      | cons t2 rest2 =>
          have hshape : interL ['/'] (t :: t2 :: rest2) =
              t ++ '/' :: interL ['/'] (t2 :: rest2) := by
            simp [interL]
          rw [hshape]
          have hrest : ∀ u ∈ t2 :: rest2, u ≠ [] ∧ '/' ∉ u :=
            fun u hu => h u (List.mem_cons_of_mem t hu)
          refine noDouble_glue t _ (h t (by simp)).2 (h t (by simp)).1
            (ih (by simp) hrest)
            (interL_ne_nil _ _ (by simp) (fun u hu => (hrest u hu).1)) ?_
          intro a ha
          rw [interL_head? ['/'] t2 rest2 (hrest t2 (by simp)).1] at ha
          intro hslash
          subst hslash
          exact (hrest t2 (by simp)).2 (List.mem_of_mem_head? ha)

/-- Joining non-empty slash-free pieces with "/" yields a string that does
not end in a slash. -/
theorem interL_lastNotSlash (ts : List (List Char)) (hne : ts ≠ [])
    (h : ∀ t ∈ ts, t ≠ [] ∧ '/' ∉ t) :
    lastNotSlash (interL ['/'] ts) = true := by
  rw [lastNotSlash_iff]
  intro a ha
  rcases interL_getLast? ['/'] ts hne (fun u hu => (h u hu).1)
    with ⟨u, hu, hlast⟩
  rw [hlast] at ha
  intro hslash
  subst hslash
  exact (h u hu).2 (List.mem_of_getLast?_eq_some ha)

/-- The sorted enumeration of a set of good tokens consists of good
tokens. -/
theorem sort_goodToken (s : Finset (List Char)) (h : ∀ t ∈ s, goodToken t) :
    ∀ t ∈ sortTokens s, goodToken t := by
  intro t ht
  simp only [sortTokens, Finset.mem_sort] at ht
  exact h t ht

/-- The sorted enumeration of a non-empty set is non-empty. -/
theorem sortTokens_ne_nil (s : Finset (List Char)) (hs : s.Nonempty) :
    sortTokens s ≠ [] := by
  rcases hs with ⟨x, hx⟩
  intro hnil
  have hmem : x ∈ sortTokens s := by
    simp [sortTokens, Finset.mem_sort, hx]
  rw [hnil] at hmem
  cases hmem

/-- Evaluating the level-part tokenisation of the serialised form of a
non-empty good level set recovers the set. -/
theorem level_tokens_eval (s : Finset (List Char)) (hs : s.Nonempty)
    (h : ∀ t ∈ s, goodToken t) (hU : strL "UNCLASSIFIED" ∉ s) :
    (((splitSlash (interL ['/'] (sortTokens s))).map trimL).filter
        (fun t => t ≠ strL "UNCLASSIFIED")).toFinset = s := by
  have hgood := sort_goodToken s h
  rw [splitSlash_interL (sortTokens s) (sortTokens_ne_nil s hs)
    (fun t ht => (hgood t ht).2.1)]
  rw [List.map_congr_left (fun t ht => (hgood t ht).2.2.2.2), List.map_id']
  rw [List.filter_eq_self.mpr]
  · exact Finset.sort_toFinset _ s
  · intro t ht
    simp only [sortTokens, Finset.mem_sort] at ht
    simp only [decide_eq_true_eq]
    intro hq
    subst hq
    exact hU ht

/-- Evaluating the compartment-part tokenisation of the serialised form of
a non-empty good compartment set recovers the set. -/
theorem comp_tokens_eval (s : Finset (List Char)) (hs : s.Nonempty)
    (h : ∀ t ∈ s, goodToken t) :
    ((splitSlash (interL ['/'] (sortTokens s))).map trimL).toFinset = s := by
  have hgood := sort_goodToken s h
  rw [splitSlash_interL (sortTokens s) (sortTokens_ne_nil s hs)
    (fun t ht => (hgood t ht).2.1)]
  rw [List.map_congr_left (fun t ht => (hgood t ht).2.2.2.2), List.map_id']
  exact Finset.sort_toFinset _ s

/-- The head of a join of good tokens is not whitespace. -/
theorem interL_head_not_ws (ts : List (List Char)) (hne : ts ≠ [])
    (h : ∀ t ∈ ts, goodToken t) :
    ∀ a, (interL ['/'] ts).head? = some a → wsb a = false := by
  intro a ha
  cases ts with
  | nil => exact absurd rfl hne
  | cons t rest =>
      rw [interL_head? ['/'] t rest (h t (by simp)).1] at ha
      cases t with
      | nil => cases ha
      | cons b t' =>
          have hb : b = a := by
            have : some b = some a := ha
            exact Option.some.inj this
          subst hb
          exact head_not_ws_of_trim b t' (h _ (by simp)).2.2.2.2

/-- The last character of a join of good tokens is not whitespace. -/
theorem interL_last_not_ws (ts : List (List Char)) (hne : ts ≠ [])
    (h : ∀ t ∈ ts, goodToken t) :
    ∀ a, (interL ['/'] ts).getLast? = some a → wsb a = false := by
  intro a ha
  rcases interL_getLast? ['/'] ts hne (fun u hu => (h u hu).1)
    with ⟨u, hu, hlast⟩
  rw [hlast] at ha
  have hrev : u.reverse.head? = some a := by
    rw [List.head?_reverse]
    exact ha
  cases hr : u.reverse with
  | nil => rw [hr] at hrev; cases hrev
  | cons b tail =>
      rw [hr] at hrev
      have hb : b = a := Option.some.inj hrev
      subst hb
      exact last_not_ws_of_trim u b tail (h u hu).2.2.2.2 hr

/-- A join of good tokens contains no parenthesis. -/
theorem interL_no_paren (ts : List (List Char))
    (h : ∀ t ∈ ts, goodToken t) :
    '(' ∉ interL ['/'] ts ∧ ')' ∉ interL ['/'] ts := by
  constructor <;> intro hx <;>
    rcases mem_interL ['/'] ts _ hx with ⟨u, hu, hxu⟩ | hs
  · exact (h u hu).2.2.1 hxu
  · simp at hs
  · exact (h u hu).2.2.2.1 hxu
  · simp at hs

/-- The facts needed about the level part of a serialised marking whose
level tokens are good and do not contain the literal UNCLASSIFIED. -/
theorem level_part_facts (c : Classification)
    (hL : ∀ t ∈ c.level, goodToken t)
    (hU : strL "UNCLASSIFIED" ∉ c.level) :
    level_part c ≠ [] ∧
    noDouble (level_part c) = true ∧
    lastNotSlash (level_part c) = true ∧
    '(' ∉ level_part c ∧ ')' ∉ level_part c ∧
    (∀ a, (level_part c).head? = some a → wsb a = false) ∧
    (∀ a, (level_part c).getLast? = some a → wsb a = false) ∧
    (if (level_part c).length = 0 then (∅ : Finset (List Char))
     else (((splitSlash (level_part c)).map trimL).filter
        (fun t => t ≠ strL "UNCLASSIFIED")).toFinset) = c.level := by
  by_cases hcard : 0 < c.level.card
  · have hs : c.level.Nonempty := Finset.card_pos.mp hcard
    have hlp : level_part c = interL ['/'] (sortTokens c.level) := by
      simp [level_part, hcard]
    have hgood := sort_goodToken c.level hL
    have hne := sortTokens_ne_nil c.level hs
    have hpair : ∀ t ∈ sortTokens c.level, t ≠ [] ∧ '/' ∉ t :=
      fun t ht => ⟨(hgood t ht).1, (hgood t ht).2.1⟩
    have hnn := interL_ne_nil ['/'] _ hne (fun t ht => (hpair t ht).1)
    rw [hlp]
    refine ⟨hnn, interL_noDouble _ hne hpair, interL_lastNotSlash _ hne hpair,
      (interL_no_paren _ hgood).1, (interL_no_paren _ hgood).2,
      interL_head_not_ws _ hne hgood, interL_last_not_ws _ hne hgood, ?_⟩
    rw [if_neg (by simpa using List.length_pos.mpr hnn |>.ne')]
    exact level_tokens_eval c.level hs hL hU
  · have hempty : c.level = ∅ := Finset.card_eq_zero.mp (by omega)
    have hlp : level_part c = strL "UNCLASSIFIED" := by
      simp [level_part, hcard]
    rw [hlp, hempty]
    refine ⟨by decide, by decide, by decide, by decide, by decide,
      ?_, ?_, by decide⟩
    · intro a ha
      have hh : (strL "UNCLASSIFIED").head? = some 'U' := by decide
      rw [hh] at ha
      have : a = 'U' := (Option.some.inj ha).symm
      subst this
      decide
    · intro a ha
      have : a = 'D' := by
        have hh : (strL "UNCLASSIFIED").getLast? = some 'D' := by decide
        rw [hh] at ha
        exact (Option.some.inj ha).symm
      subst this
      decide

/-- The facts needed about the compartment part of a serialised marking
with a non-empty set of good compartment tokens. -/
theorem comp_part_facts (c : Classification)
    (hC : ∀ t ∈ c.compartment, goodToken t)
    (hs : c.compartment.Nonempty) :
    comp_part c ≠ [] ∧
    noDouble (comp_part c) = true ∧
    '(' ∉ comp_part c ∧ ')' ∉ comp_part c ∧
    (∀ a, (comp_part c).head? = some a → wsb a = false) ∧
    (∀ a, (comp_part c).getLast? = some a → wsb a = false) ∧
    ((splitSlash (comp_part c)).map trimL).toFinset = c.compartment := by
  have hgood := sort_goodToken c.compartment hC
  have hne := sortTokens_ne_nil c.compartment hs
  have hpair : ∀ t ∈ sortTokens c.compartment, t ≠ [] ∧ '/' ∉ t :=
    fun t ht => ⟨(hgood t ht).1, (hgood t ht).2.1⟩
  exact ⟨interL_ne_nil ['/'] _ hne (fun t ht => (hpair t ht).1),
    interL_noDouble _ hne hpair,
    (interL_no_paren _ hgood).1, (interL_no_paren _ hgood).2,
    interL_head_not_ws _ hne hgood, interL_last_not_ws _ hne hgood,
    comp_tokens_eval c.compartment hs hC⟩

/-- An empty compartment set serialises to an empty compartment part. -/
theorem comp_part_empty (c : Classification) (h : c.compartment = ∅) :
    comp_part c = [] := by
  simp [comp_part, sortTokens, h, interL]

/-- Serialising a marking whose tokens are good (and whose level does not
contain the literal UNCLASSIFIED) and re-parsing recovers the marking. -/
theorem parse_repr_roundtrip (c : Classification)
    (hL : ∀ t ∈ c.level, goodToken t)
    (hC : ∀ t ∈ c.compartment, goodToken t)
    (hU : strL "UNCLASSIFIED" ∉ c.level) :
    parse_classification_string (repr_marking c) = .ok c := by
  rcases level_part_facts c hL hU with
    ⟨hlne, hlnd, hlls, hlp1, hlp2, hlhead, hllast, hleval⟩
  rcases c.compartment.eq_empty_or_nonempty with hce | hcs
  · have hcp := comp_part_empty c hce
    have hbody : repr_marking c = '(' :: (level_part c ++ [')']) := by
      simp [repr_marking, hcp]
    have htrim : trimL (level_part c) = level_part c :=
      trim_eq_self_of_ends _ hlhead hllast
    have hsplit : split2 (level_part c) = (level_part c, none) := by
      simp [split2, htrim, splitDSlash_noDouble _ hlnd]
    rw [hbody]
    simp only [parse_classification_string,
      remove_parens_wrap (level_part c) hlp1 hlp2, hsplit]
    rw [hleval, ← hce]
  · rcases comp_part_facts c hC hcs with
      ⟨hcne, hcnd, hcp1, hcp2, hchead, hclast, hceval⟩
    have hlen : 0 < (comp_part c).length := List.length_pos.mpr hcne
    have hshape : level_part c ++ strL "//" ++ comp_part c =
        level_part c ++ '/' :: '/' :: comp_part c := by
      simp [strL]
    have hbody : repr_marking c =
        '(' :: ((level_part c ++ '/' :: '/' :: comp_part c) ++ [')']) := by
      rw [repr_marking, if_pos hlen, hshape]
    have hBp1 : '(' ∉ level_part c ++ '/' :: '/' :: comp_part c := by
      simp only [List.mem_append, List.mem_cons, not_or]
      exact ⟨hlp1, by decide, by decide, hcp1⟩
    have hBp2 : ')' ∉ level_part c ++ '/' :: '/' :: comp_part c := by
      simp only [List.mem_append, List.mem_cons, not_or]
      exact ⟨hlp2, by decide, by decide, hcp2⟩
    have hBhead : ∀ a,
        (level_part c ++ '/' :: '/' :: comp_part c).head? = some a →
        wsb a = false := by
      intro a ha
      cases hlp : level_part c with
      | nil => exact absurd hlp hlne
      | cons b l' =>
          rw [hlp] at ha
          have hb : b = a := Option.some.inj ha
          subst hb
          apply hlhead
          rw [hlp]
          rfl
    have hBlast : ∀ a,
        (level_part c ++ '/' :: '/' :: comp_part c).getLast? = some a →
        wsb a = false := by
      intro a ha
      rw [List.getLast?_append] at ha
      have hsome : ('/' :: '/' :: comp_part c).getLast?.isSome := by
        rw [List.getLast?_isSome]
        simp
      rw [Option.or_of_isSome hsome] at ha
      rw [List.getLast?_cons_cons] at ha
      rcases List.exists_cons_of_ne_nil hcne with ⟨m, M, hmM⟩
      rw [hmM, List.getLast?_cons_cons, ← hmM] at ha
      exact hclast a ha
    have htrim : trimL (level_part c ++ '/' :: '/' :: comp_part c) =
        level_part c ++ '/' :: '/' :: comp_part c :=
      trim_eq_self_of_ends _ hBhead hBlast
    have hsplitD : splitDSlash (level_part c ++ '/' :: '/' :: comp_part c) =
        [level_part c, comp_part c] := by
      rw [splitDSlash_append _ _ hlnd hlls, splitDSlash_noDouble _ hcnd]
    have hsplit : split2 (level_part c ++ '/' :: '/' :: comp_part c) =
        (level_part c, some (comp_part c)) := by
      simp [split2, htrim, hsplitD]
    rw [hbody]
    simp only [parse_classification_string,
      remove_parens_wrap _ hBp1 hBp2, hsplit]
    rw [hleval]
    rw [if_neg (by omega)]
    rw [hceval]

/-- A string containing ")" but no "(" fails paren removal. -/
theorem remove_parens_mismatch2 (s : List Char) (h1 : '(' ∉ s)
    (h2 : ')' ∈ s) : remove_parens s = .raised .valueError := by
  rcases Option.isSome_iff_exists.mp (rfindIdx_isSome ')' s h2) with ⟨j, hj⟩
  simp [remove_parens, ffindIdx_eq_none '(' s h1, hj]

/-- Counterexample for claim C5 as stated: the parser keeps empty tokens
produced by a trailing slash in a non-empty part ("A/" parses to the level
set containing "A" and the empty token), while the claim says empty tokens
are dropped, which would give the level set containing just "A". -/
theorem claim5_cex_empty_token :
    parse_classification_string (strL "A/") =
      .ok ⟨{strL "A", strL ""}, ∅⟩ ∧
    ({strL "A", strL ""} : Finset (List Char)) ≠ {strL "A"} := by decide

/-- Claim C5 as amended: parentheses wrapped around a paren-free marking
are transparent; a marking with exactly one of the two parens fails (shown
in both directions, and on the spec's concrete example); the string is
split on "//" keeping only the first two segments (segments after the
second "//" are discarded, as in "A//B//C"); tokens are trimmed but empty
tokens are kept (as in "A/"); the literal UNCLASSIFIED level token is
equivalent to an empty level set; and coercing None gives the bottom
marking. -/
theorem claim5_amended_parse (s₁ : List Char)
    (h1 : '(' ∉ s₁) (h2 : ')' ∉ s₁)
    (s₂ : List Char) (h3 : '(' ∈ s₂) (h4 : ')' ∉ s₂)
    (s₃ : List Char) (h5 : '(' ∉ s₃) (h6 : ')' ∈ s₃) :
    parse_classification_string ('(' :: (s₁ ++ [')'])) =
      parse_classification_string s₁ ∧
    parse_classification_string s₂ = .raised .valueError ∧
    parse_classification_string s₃ = .raised .valueError ∧
    parse_classification_string (strL "(PHI//FOO/BAR") =
      .raised .valueError ∧
    parse_classification_string (strL "A//B//C") =
      .ok ⟨{strL "A"}, {strL "B"}⟩ ∧
    parse_classification_string (strL "A/") =
      .ok ⟨{strL "A", strL ""}, ∅⟩ ∧
    parse_classification_string (strL "UNCLASSIFIED//FOO/BAR") =
      .ok ⟨∅, {strL "FOO", strL "BAR"}⟩ ∧
    Classification.coerce .nil none = .ok ⟨∅, ∅⟩ := by
  refine ⟨?_, ?_, ?_, by decide, by decide, by decide, by decide, rfl⟩
  · simp only [parse_classification_string, remove_parens_wrap s₁ h1 h2,
      remove_parens_nop s₁ h1 h2]
  · simp only [parse_classification_string,
      remove_parens_mismatch s₂ h3 h4]
  · simp only [parse_classification_string,
      remove_parens_mismatch2 s₃ h5 h6]

/-- Witness for claim C5 at concrete markings. -/
theorem claim5_amended_parse_w :
    parse_classification_string ('(' :: (strL "PHI//FOO" ++ [')'])) =
      parse_classification_string (strL "PHI//FOO") ∧
    parse_classification_string (strL "(A") = .raised .valueError ∧
    parse_classification_string (strL "A)") = .raised .valueError ∧
    parse_classification_string (strL "(PHI//FOO/BAR") =
      .raised .valueError ∧
    parse_classification_string (strL "A//B//C") =
      .ok ⟨{strL "A"}, {strL "B"}⟩ ∧
    parse_classification_string (strL "A/") =
      .ok ⟨{strL "A", strL ""}, ∅⟩ ∧
    parse_classification_string (strL "UNCLASSIFIED//FOO/BAR") =
      .ok ⟨∅, {strL "FOO", strL "BAR"}⟩ ∧
    Classification.coerce .nil none = .ok ⟨∅, ∅⟩ :=
  claim5_amended_parse (strL "PHI//FOO") (by decide) (by decide)
    (strL "(A") (by decide) (by decide)
    (strL "A)") (by decide) (by decide)

/-- Claim C8: parsing "(PHI//FOO/BAR)" yields level {PHI} and compartment
{FOO, BAR}; and for every Classification whose tokens are non-empty,
contain no "/", "(", ")" and no surrounding whitespace, and whose level
does not contain the literal token UNCLASSIFIED, serialising to the
textual notation and re-parsing yields an equal Classification. -/
theorem claim8_repr_parse_roundtrip (c : Classification)
    (hL : ∀ t ∈ c.level, goodToken t)
    (hC : ∀ t ∈ c.compartment, goodToken t)
    (hU : strL "UNCLASSIFIED" ∉ c.level) :
    parse_classification_string (strL "(PHI//FOO/BAR)") =
      .ok ⟨{strL "PHI"}, {strL "FOO", strL "BAR"}⟩ ∧
    parse_classification_string (repr_marking c) = .ok c :=
  ⟨by decide, parse_repr_roundtrip c hL hC hU⟩

/-- Witness for claim C8 at a concrete marking with both parts present. -/
theorem claim8_repr_parse_roundtrip_w :
    parse_classification_string (strL "(PHI//FOO/BAR)") =
      .ok ⟨{strL "PHI"}, {strL "FOO", strL "BAR"}⟩ ∧
    parse_classification_string
        (repr_marking ⟨{strL "PHI"}, {strL "FOO", strL "BAR"}⟩) =
      .ok ⟨{strL "PHI"}, {strL "FOO", strL "BAR"}⟩ :=
  claim8_repr_parse_roundtrip ⟨{strL "PHI"}, {strL "FOO", strL "BAR"}⟩
    (by decide) (by decide) (by decide)
